import Mathlib

/-!
Shallow embedding of `src/retrieval/collector.py` (class `RuleCollector`),
the candidate collector of the H-M-Fashion-RecSys repository.

Tables are lists of rows; pandas NaN/null cells are `Option` values.
User ids and item ids are natural numbers, scores are integers, method
labels and categorical attribute values are strings.  Each retrieval
strategy or filter object is modelled as a tagged variant carrying the
table its `retrieve()` call returns (strategies are external collaborators
whose output is already materialized); an extra `unknown` variant models an
object that does not conform to any recognized class, as checked by
`_check_rule` / `_check_filter`.
-/

namespace HMRec

abbrev UserId := Nat
abbrev ItemId := Nat

/-- A categorical attribute value; `none` models pandas NaN.  Pandas `merge`
matches NaN join keys to each other, which `Option` equality mirrors. -/
abbrev AttrVal := Option String

/-- A row of a `PersonalRetrieveRule.retrieve()` table: it already carries
`customer_id` next to `item_id`, `score`, `method` (collector.py line 76). -/
structure PRow where
  customer_id : UserId
  item : ItemId
  score : Int
  method : String
deriving DecidableEq

/-- A row of a `GlobalRetrieveRule.retrieve()` table: no user dimension
(collector.py line 66). -/
structure GRow where
  item : ItemId
  score : Int
  method : String
deriving DecidableEq

/-- A row of a `UserGroupRetrieveRule.retrieve()` table: the values of the
rule's `cat_cols` (in `cat_cols` order) plus `item_id`, `score`, `method`
(collector.py line 79). -/
structure UGRow where
  key : List AttrVal
  item : ItemId
  score : Int
  method : String
deriving DecidableEq

/-- A row of `data["user"]`: a user id with its categorical attribute
columns, as an association list from column name to value. -/
structure URow where
  customer_id : UserId
  attrs : List (String × AttrVal)
deriving DecidableEq

/-- Value of column `c` for the attribute list `attrs`; a missing column
reads as null (collector.py line 80 assumes the columns exist). -/
def attrOf (attrs : List (String × AttrVal)) (c : String) : AttrVal :=
  match attrs.lookup c with
  | some v => v
  | none => none

/-- A retrieval strategy object as dispatched by `isinstance` checks
(collector.py lines 66-84); `unknown` models an object of none of the three
recognized classes. -/
inductive Rule where
  | personal (rows : List PRow)
  | global (rows : List GRow)
  | userGroup (catCols : List String) (rows : List UGRow)
  | unknown
deriving DecidableEq

/-- A filter object; `unknown` models an object that is not a `FilterRule`. -/
inductive FilterObj where
  | rule (items : List ItemId)
  | unknown
deriving DecidableEq

/-- The item ids returned by a filter's `retrieve()` (collector.py line 58).
The `unknown` case is unreachable after `_check_filter`. -/
def FilterObj.retrieve : FilterObj → List ItemId
  | .rule its => its
  | .unknown => []

/-- A row of the normalized candidate table `(customer_id, item_id, score,
method)`; `none` cells are the NaNs produced by left-join misses. -/
structure FlatRow where
  customer_id : UserId
  item : Option ItemId
  score : Option Int
  method : Option String
deriving DecidableEq

/-- `_check_rule` acceptance of a single strategy object
(collector.py lines 107-112). -/
def Rule.recognized : Rule → Bool
  | .unknown => false
  | _ => true

/-- `_check_filter` acceptance of a single filter object
(collector.py lines 119-120). -/
def FilterObj.recognized : FilterObj → Bool
  | .rule _ => true
  | .unknown => false

/-- `_check_rule` over the whole list (collector.py lines 105-115):
`true` iff no rule raises `TypeError`. -/
def checkRules (rules : List Rule) : Bool := rules.all Rule.recognized

/-- `_check_filter` over the whole list (collector.py lines 117-121). -/
def checkFilters (fs : List FilterObj) : Bool := fs.all FilterObj.recognized

/-- The filter check as guarded at collector.py lines 50-53: skipped when
`filters is None`. -/
def filtersOk : Option (List FilterObj) → Bool
  | none => true
  | some fs => checkFilters fs

/-- The exclusion list `rm_items` (collector.py lines 56-58): concatenation
of every filter's `retrieve()`; `None` filters means no filters. -/
def rmItemsOf (filters : Option (List FilterObj)) : List ItemId :=
  (filters.getD []).flatMap FilterObj.retrieve

/-- Broadcast of a `GlobalRetrieveRule` table over the target users
(collector.py lines 66-74): `np.repeat(customer_list, num_item)` paired
with `np.tile(np.arange(num_item), num_user)` puts, for each user in
list order, one copy of every item row in item order. -/
def globalBroadcast (customer_list : List UserId) (rows : List GRow) :
    List FlatRow :=
  customer_list.flatMap (fun u =>
    rows.map (fun r => ⟨u, some r.item, some r.score, some r.method⟩))

/-- Cohort keys of target user `u` after the first left merge
(collector.py line 82, `how="left"` on `customer_id`): one key per matching
user-table row, or a single all-null key when `u` is absent. -/
def ugUserKeys (userTable : List URow) (catCols : List String) (u : UserId) :
    List (List AttrVal) :=
  let ms := userTable.filter (fun r => r.customer_id == u)
  if ms.isEmpty then [catCols.map (fun _ => (none : AttrVal))]
  else ms.map (fun r => catCols.map (fun c => attrOf r.attrs c))

/-- Second left merge of the UserGroup normalization (collector.py line 83,
`how="left"` on `cat_cols`): all item rows whose key matches, or one
null-item row when none does. -/
def ugJoinItems (rows : List UGRow) (u : UserId) (k : List AttrVal) :
    List FlatRow :=
  let ms := rows.filter (fun r => r.key == k)
  if ms.isEmpty then [⟨u, none, none, none⟩]
  else ms.map (fun r => ⟨u, some r.item, some r.score, some r.method⟩)

/-- Full UserGroup normalization (collector.py lines 79-84), including the
final projection to `customer_id, item_id, score, method`. -/
def userGroupNormalize (userTable : List URow) (catCols : List String)
    (rows : List UGRow) (customer_list : List UserId) : List FlatRow :=
  customer_list.flatMap (fun u =>
    (ugUserKeys userTable catCols u).flatMap (ugJoinItems rows u))

/-- One loop iteration of collector.py lines 62-84: `rule.retrieve()`,
removal of excluded items (line 64), then variant dispatch.  The `unknown`
case is unreachable after `_check_rule`. -/
def ruleNormalize (userTable : List URow) (customer_list : List UserId)
    (rm : List ItemId) : Rule → List FlatRow
  | .personal rows =>
      (rows.filter (fun r => !(rm.contains r.item))).map
        (fun r => ⟨r.customer_id, some r.item, some r.score, some r.method⟩)
  | .global rows =>
      globalBroadcast customer_list (rows.filter (fun r => !(rm.contains r.item)))
  | .userGroup catCols rows =>
      userGroupNormalize userTable catCols
        (rows.filter (fun r => !(rm.contains r.item))) customer_list
  | .unknown => []

/-- `pd.concat([pred_df, tmp_df], ignore_index=True)` with the accumulator
possibly still `None` (collector.py lines 61, 86): `pd.concat` drops a
`None` entry. -/
def concatAcc (acc : Option (List FlatRow)) (t : List FlatRow) :
    Option (List FlatRow) :=
  some (acc.getD [] ++ t)

/-- The accumulator `pred_df` after the rule loop (collector.py lines
61-86): starts as `None`, stays `None` for an empty rule list. -/
def predDf (userTable : List URow) (customer_list : List UserId)
    (rm : List ItemId) (rules : List Rule) : Option (List FlatRow) :=
  rules.foldl
    (fun acc r => concatAcc acc (ruleNormalize userTable customer_list rm r))
    none

/-- `pred_df.groupby("customer_id")[item_id].apply(list)` (collector.py
line 93): one entry per distinct `customer_id`, each group's item cells
collapsed into a list in row order.  NaN item cells are kept: `list` over
a group's column does not drop NaN.  (Pandas sorts the group keys; that
order is irrelevant to the left merge below, which only looks keys up, so
first-occurrence order is used here.) -/
def groupApplyList (flat : List FlatRow) :
    List (UserId × List (Option ItemId)) :=
  ((flat.map (fun r => r.customer_id)).dedup).map
    (fun u => (u, (flat.filter (fun r => r.customer_id == u)).map
                    (fun r => r.item)))

/-- `pd.merge(output_df, pred_df, on=["customer_id"], how="left")`
(collector.py lines 94-95): the target list in caller order, each entry
looking its group up; a miss is a NaN cell. -/
def leftJoinUsers (customer_list : List UserId)
    (grouped : List (UserId × List (Option ItemId))) :
    List (UserId × Option (List (Option ItemId))) :=
  customer_list.map (fun u => (u, grouped.lookup u))

/-- Imputation of NaN cells with the empty list (collector.py lines 97-99). -/
def imputeEmpty (rows : List (UserId × Option (List (Option ItemId)))) :
    List (UserId × List (Option ItemId)) :=
  rows.map (fun p => (p.1, p.2.getD []))

/-- The whole compression branch (collector.py lines 92-101). -/
def compressDf (customer_list : List UserId) (flat : List FlatRow) :
    List (UserId × List (Option ItemId)) :=
  imputeEmpty (leftJoinUsers customer_list (groupApplyList flat))

/-- A failure of `collect`: the two `TypeError`s of `_check_rule` /
`_check_filter`, and the `AttributeError` hit when `compress=True` runs
`None.groupby` because no rule ever filled the accumulator. -/
inductive CollectError where
  | unsupportedStrategy
  | unsupportedFilter
  | noneGroupby
deriving DecidableEq

/-- A successful return of `collect`: the flat accumulator (possibly the
uninitialized `None`, collector.py line 103) or the compressed table
(line 101). -/
inductive CollectOutput where
  | flat (t : Option (List FlatRow))
  | compressed (t : List (UserId × List (Option ItemId)))
deriving DecidableEq

/-- `RuleCollector.collect` (collector.py lines 16-103): parameter checks,
exclusion set, per-rule normalization and concatenation, then optional
compression. -/
def collect (userTable : List URow) (customer_list : List UserId)
    (rules : List Rule) (filters : Option (List FilterObj))
    (compress : Bool) : Except CollectError CollectOutput :=
  if !(checkRules rules) then .error .unsupportedStrategy
  else if !(filtersOk filters) then .error .unsupportedFilter
  else
    let rm := rmItemsOf filters
    let pred := predDf userTable customer_list rm rules
    if compress then
      match pred with
      | none => .error .noneGroupby
      | some flat => .ok (.compressed (compressDf customer_list flat))
    else .ok (.flat pred)

/-- An observable `retrieve()` invocation, indexed by position in the
filter or rule list. -/
inductive Event where
  | filterRetrieve (idx : Nat)
  | ruleRetrieve (idx : Nat)
deriving DecidableEq

/-- The sequence of `retrieve()` invocations `collect` performs, per the
source control flow: both checks run first (collector.py lines 49-51),
then every filter's `retrieve()` (line 58), then every rule's `retrieve()`
(line 63); a failed check aborts before any invocation. -/
def collectEvents (rules : List Rule) (filters : Option (List FilterObj)) :
    List Event :=
  if !(checkRules rules) then []
  else if !(filtersOk filters) then []
  else
    (List.range (filters.getD []).length).map Event.filterRetrieve ++
      (List.range rules.length).map Event.ruleRetrieve

deriving instance DecidableEq for Except

/-! ### Basic lemmas about the embedded collector -/

theorem foldl_concatAcc (userTable : List URow) (customer_list : List UserId)
    (rm : List ItemId) (rules : List Rule) (t : List FlatRow) :
    rules.foldl
      (fun acc r => concatAcc acc (ruleNormalize userTable customer_list rm r))
      (some t)
      = some (t ++ rules.flatMap (ruleNormalize userTable customer_list rm)) := by
  induction rules generalizing t with
  | nil => simp
  | cons r rs ih =>
      rw [List.foldl_cons,
        show concatAcc (some t) (ruleNormalize userTable customer_list rm r)
            = some (t ++ ruleNormalize userTable customer_list rm r) from rfl,
        ih, List.flatMap_cons, List.append_assoc]

theorem predDf_eq_of_ne_nil (userTable : List URow)
    (customer_list : List UserId) (rm : List ItemId) {rules : List Rule}
    (h : rules ≠ []) :
    predDf userTable customer_list rm rules
      = some (rules.flatMap (ruleNormalize userTable customer_list rm)) := by
  match rules with
  | [] => exact absurd rfl h
  | r :: rs =>
      rw [show predDf userTable customer_list rm (r :: rs)
            = List.foldl
                (fun acc ru =>
                  concatAcc acc (ruleNormalize userTable customer_list rm ru))
                (some (ruleNormalize userTable customer_list rm r)) rs from rfl,
        foldl_concatAcc, List.flatMap_cons]

theorem lookup_map_pair {β : Type} (f : UserId → β) (u : UserId)
    (l : List UserId) :
    List.lookup u (l.map (fun v => (v, f v)))
      = if u ∈ l then some (f u) else none := by
  induction l with
  | nil => simp [List.lookup]
  | cons v vs ih =>
      by_cases h : u = v
      · subst h
        simp [List.lookup]
      · have hb : (u == v) = false := beq_false_of_ne h
        simp [List.lookup, hb, ih, h]

theorem compressDf_eq (customer_list : List UserId) (flat : List FlatRow) :
    compressDf customer_list flat
      = customer_list.map (fun u =>
          (u, (flat.filter (fun r => r.customer_id == u)).map
                (fun r => r.item))) := by
  unfold compressDf imputeEmpty leftJoinUsers groupApplyList
  rw [List.map_map]
  apply List.map_congr_left
  intro u _
  simp only [Function.comp]
  rw [lookup_map_pair]
  by_cases h : u ∈ (flat.map (fun r => r.customer_id)).dedup
  · simp [h]
  · have hnot : ∀ r ∈ flat, ¬ (r.customer_id == u) = true := by
      intro r hr hbeq
      exact h (List.mem_dedup.mpr (List.mem_map.mpr
        ⟨r, hr, eq_of_beq hbeq⟩))
    simp [h, List.filter_eq_nil_iff.mpr hnot]

theorem collect_compress_eq (userTable : List URow)
    (customer_list : List UserId) {rules : List Rule}
    {filters : Option (List FilterObj)}
    (hr : rules ≠ []) (hcr : checkRules rules = true)
    (hcf : filtersOk filters = true) :
    collect userTable customer_list rules filters true
      = .ok (.compressed (customer_list.map (fun u =>
          (u, ((rules.flatMap
                  (ruleNormalize userTable customer_list (rmItemsOf filters))).filter
                 (fun r => r.customer_id == u)).map (fun r => r.item))))) := by
  unfold collect
  rw [hcr, hcf]
  simp only [Bool.not_true, Bool.false_eq_true, if_false, if_true]
  rw [predDf_eq_of_ne_nil userTable customer_list (rmItemsOf filters) hr]
  exact congrArg (fun t => Except.ok (CollectOutput.compressed t))
    (compressDf_eq customer_list _)

theorem collect_flat_eq (userTable : List URow)
    (customer_list : List UserId) {rules : List Rule}
    {filters : Option (List FilterObj)}
    (hcr : checkRules rules = true) (hcf : filtersOk filters = true) :
    collect userTable customer_list rules filters false
      = .ok (.flat (predDf userTable customer_list (rmItemsOf filters) rules)) := by
  unfold collect
  rw [hcr, hcf]
  simp only [Bool.not_true, Bool.false_eq_true, if_false, if_true]

theorem filter_rm_nil {α : Type} (f : α → ItemId) (l : List α) :
    l.filter (fun a => !(([] : List ItemId).contains (f a))) = l := by
  apply List.filter_eq_self.mpr
  intro a _
  simp

theorem ugJoinItems_mem_item (rows : List UGRow) (u : UserId)
    (k : List AttrVal) (fr : FlatRow) (h : fr ∈ ugJoinItems rows u k) :
    fr.item = none ∨ ∃ r ∈ rows, fr.item = some r.item := by
  unfold ugJoinItems at h
  by_cases he : (rows.filter (fun r => r.key == k)).isEmpty
  · rw [if_pos he] at h
    simp only [List.mem_singleton] at h
    subst h
    exact Or.inl rfl
  · rw [if_neg he] at h
    obtain ⟨r, hr, rfl⟩ := List.mem_map.mp h
    exact Or.inr ⟨r, (List.mem_filter.mp hr).1, rfl⟩

theorem ruleNormalize_not_excluded (userTable : List URow)
    (customer_list : List UserId) (rm : List ItemId) (rule : Rule) :
    ∀ fr ∈ ruleNormalize userTable customer_list rm rule,
      ∀ x ∈ rm, fr.item ≠ some x := by
  intro fr hfr x hx heq
  cases rule with
  | personal rows =>
      obtain ⟨p, hp, rfl⟩ := List.mem_map.mp hfr
      have hc := (List.mem_filter.mp hp).2
      simp only [Option.some.injEq] at heq
      simp at hc
      exact hc (heq ▸ hx)
  | global rows =>
      obtain ⟨u, _, hmem⟩ := List.mem_flatMap.mp hfr
      obtain ⟨g, hg, rfl⟩ := List.mem_map.mp hmem
      have hc := (List.mem_filter.mp hg).2
      simp only [Option.some.injEq] at heq
      simp at hc
      exact hc (heq ▸ hx)
  | userGroup catCols rows =>
      obtain ⟨u, _, hmem⟩ := List.mem_flatMap.mp hfr
      obtain ⟨k, _, hjoin⟩ := List.mem_flatMap.mp hmem
      rcases ugJoinItems_mem_item _ u k fr hjoin with hnone | ⟨r, hr, hitem⟩
      · rw [hnone] at heq
        exact Option.noConfusion heq
      · have hc := (List.mem_filter.mp hr).2
        rw [hitem] at heq
        simp only [Option.some.injEq] at heq
        simp at hc
        exact hc (heq ▸ hx)
  | unknown => exact absurd hfr (by simp [ruleNormalize])

/-- Predicate: the given collector output mentions item id `x` in some row
(flat table) or inside some user's compressed sequence. -/
def outputHasItem : CollectOutput → ItemId → Prop
  | .flat none, _ => False
  | .flat (some t), x => ∃ r ∈ t, r.item = some x
  | .compressed t, x => ∃ p ∈ t, some x ∈ p.2

theorem countP_flatMap_const {α β : Type} (p : β → Bool) (l : List α)
    (f : α → List β) (g : α → Nat)
    (h : ∀ a ∈ l, (f a).countP p = g a) :
    (l.flatMap f).countP p = (l.map g).sum := by
  induction l with
  | nil => simp
  | cons a as ih =>
      rw [List.flatMap_cons, List.countP_append, h a (List.mem_cons_self a as),
        ih (fun b hb => h b (List.mem_cons_of_mem a hb)), List.map_cons,
        List.sum_cons]

theorem length_flatMap_const {α β : Type} (l : List α) (f : α → List β)
    (k : Nat) (h : ∀ a ∈ l, (f a).length = k) :
    (l.flatMap f).length = k * l.length := by
  induction l with
  | nil => simp
  | cons a as ih =>
      rw [List.flatMap_cons, List.length_append, h a (List.mem_cons_self a as),
        ih (fun b hb => h b (List.mem_cons_of_mem a hb)), List.length_cons,
        Nat.mul_succ]
      omega

theorem mem_flat_of_predDf (userTable : List URow)
    (customer_list : List UserId) (rm : List ItemId) (rules : List Rule)
    (flat : List FlatRow)
    (hpd : predDf userTable customer_list rm rules = some flat) :
    ∀ fr ∈ flat, ∃ rule ∈ rules,
      fr ∈ ruleNormalize userTable customer_list rm rule := by
  match rules with
  | [] => simp [predDf] at hpd
  | r :: rs =>
      rw [predDf_eq_of_ne_nil userTable customer_list rm
        (List.cons_ne_nil r rs)] at hpd
      injection hpd with hpd
      subst hpd
      intro fr hfr
      exact List.mem_flatMap.mp hfr

theorem predDf_no_excluded (userTable : List URow)
    (customer_list : List UserId) (rm : List ItemId) (rules : List Rule)
    (flat : List FlatRow)
    (hpd : predDf userTable customer_list rm rules = some flat) :
    ∀ fr ∈ flat, ∀ x ∈ rm, fr.item ≠ some x := by
  intro fr hfr x hx
  obtain ⟨rule, _, hmem⟩ :=
    mem_flat_of_predDf userTable customer_list rm rules flat hpd fr hfr
  exact ruleNormalize_not_excluded userTable customer_list rm rule fr hmem x hx

theorem collect_bad_rules (userTable : List URow)
    (customer_list : List UserId) (rules : List Rule)
    (filters : Option (List FilterObj)) (compress : Bool)
    (hcr : checkRules rules = false) :
    collect userTable customer_list rules filters compress
      = .error .unsupportedStrategy := by
  unfold collect
  rw [hcr]
  simp

theorem collect_bad_filters (userTable : List URow)
    (customer_list : List UserId) (rules : List Rule)
    (filters : Option (List FilterObj)) (compress : Bool)
    (hcr : checkRules rules = true) (hcf : filtersOk filters = false) :
    collect userTable customer_list rules filters compress
      = .error .unsupportedFilter := by
  unfold collect
  rw [hcr, hcf]
  simp

theorem collect_nil_rules_flat (userTable : List URow)
    (customer_list : List UserId) (filters : Option (List FilterObj))
    (hcf : filtersOk filters = true) :
    collect userTable customer_list [] filters false = .ok (.flat none) := by
  rw [@collect_flat_eq userTable customer_list [] filters (by rfl) hcf]
  rfl

theorem collect_nil_rules_compress (userTable : List URow)
    (customer_list : List UserId) (filters : Option (List FilterObj))
    (hcf : filtersOk filters = true) :
    collect userTable customer_list [] filters true
      = .error .noneGroupby := by
  unfold collect
  rw [hcf]
  simp [checkRules, predDf]

/-! ### Claim theorems -/

/-- C3: for every item id in the exclusion set built from the filters, no
row of the collector's successful output — whether compressed or flat —
contains that item id. -/
theorem collect_excluded_item_absent (userTable : List URow)
    (customer_list : List UserId) (rules : List Rule)
    (filters : Option (List FilterObj)) (compress : Bool) (x : ItemId)
    (out : CollectOutput) (hx : x ∈ rmItemsOf filters)
    (hout : collect userTable customer_list rules filters compress = .ok out) :
    ¬ outputHasItem out x := by
  cases hcr : checkRules rules with
  | false =>
      rw [collect_bad_rules userTable customer_list rules filters compress
        hcr] at hout
      exact absurd hout (by simp)
  | true =>
  cases hcf : filtersOk filters with
  | false =>
      rw [collect_bad_filters userTable customer_list rules filters compress
        hcr hcf] at hout
      exact absurd hout (by simp)
  | true =>
  cases compress with
  | false =>
      rw [collect_flat_eq userTable customer_list hcr hcf] at hout
      injection hout with hout
      subst hout
      cases hpd : predDf userTable customer_list (rmItemsOf filters) rules with
      | none => simp [outputHasItem, hpd]
      | some flat =>
          intro hcon
          obtain ⟨r, hr, hitem⟩ := hcon
          exact predDf_no_excluded userTable customer_list (rmItemsOf filters)
            rules flat hpd r hr x hx hitem
  | true =>
      match rules with
      | [] =>
          rw [collect_nil_rules_compress userTable customer_list filters
            hcf] at hout
          exact absurd hout (by simp)
      | rule :: rs =>
          rw [collect_compress_eq userTable customer_list
            (List.cons_ne_nil rule rs) hcr hcf] at hout
          injection hout with hout
          subst hout
          intro hcon
          obtain ⟨p, hp, hxin⟩ := hcon
          obtain ⟨u, _, rfl⟩ := List.mem_map.mp hp
          obtain ⟨r, hr, hitem⟩ := List.mem_map.mp hxin
          have hrflat := (List.mem_filter.mp hr).1
          have hpd := predDf_eq_of_ne_nil userTable customer_list
            (rmItemsOf filters) (List.cons_ne_nil rule rs)
          exact predDf_no_excluded userTable customer_list (rmItemsOf filters)
            (rule :: rs) _ hpd r hrflat x hx hitem

/-- C9: with an empty strategy list the collector never produces a
candidate table: with compression off it returns the uninitialized `None`
accumulator instead of an empty table, and with compression on the
grouping step fails outright. -/
theorem collect_empty_rules (userTable : List URow)
    (customer_list : List UserId) (filters : Option (List FilterObj))
    (hcf : filtersOk filters = true) :
    collect userTable customer_list [] filters false = .ok (.flat none)
    ∧ collect userTable customer_list [] filters true
        = .error .noneGroupby :=
  ⟨collect_nil_rules_flat userTable customer_list filters hcf,
   collect_nil_rules_compress userTable customer_list filters hcf⟩

/-- C8: an unrecognized strategy object, or a supplied filter object that
is not a `FilterRule`, makes the collector fail with the corresponding
`TypeError` — rules checked first — and no `retrieve()` is ever invoked,
so no partial work is performed. -/
theorem collect_type_check_fail_fast (userTable : List URow)
    (customer_list : List UserId) (rules : List Rule)
    (filters : Option (List FilterObj)) (compress : Bool)
    (h : checkRules rules = false ∨ filtersOk filters = false) :
    collectEvents rules filters = []
    ∧ (checkRules rules = false →
        collect userTable customer_list rules filters compress
          = .error .unsupportedStrategy)
    ∧ (checkRules rules = true →
        collect userTable customer_list rules filters compress
          = .error .unsupportedFilter) := by
  refine ⟨?_, ?_, ?_⟩
  · rcases h with h | h
    · simp [collectEvents, h]
    · cases hcr : checkRules rules <;> simp [collectEvents, h, hcr]
  · intro hcr
    exact collect_bad_rules userTable customer_list rules filters compress hcr
  · intro hcr
    rcases h with h | h
    · exact absurd hcr (by simp [h])
    · exact collect_bad_filters userTable customer_list rules filters
        compress hcr h

/-- C1 (amended): for every target user list and every non-empty,
recognized strategy list (with conforming filters), the compressed output
has exactly one row per entry of the target list, in target-list order —
it is the target list mapped to each user's item sequence, so no row is
absent and no sequence cell is null — and a user with no row at all in
the concatenated candidate table gets the empty sequence.  (The original
claim's stronger empty-default — empty for every user for whom no strategy
produced candidates — fails: a user whose only rows are UserGroup
left-join misses has candidate-less null rows and compresses to a
sequence of null entries, not to the empty sequence.) -/
theorem collect_compressed_coverage (userTable : List URow)
    (customer_list : List UserId) (rules : List Rule)
    (filters : Option (List FilterObj)) (hr : rules ≠ [])
    (hcr : checkRules rules = true) (hcf : filtersOk filters = true) :
    collect userTable customer_list rules filters true
      = .ok (.compressed (customer_list.map (fun u =>
          (u, ((rules.flatMap
                  (ruleNormalize userTable customer_list
                    (rmItemsOf filters))).filter
                 (fun r => r.customer_id == u)).map (fun r => r.item)))))
    ∧ ∀ u : UserId,
        (∀ r ∈ rules.flatMap
            (ruleNormalize userTable customer_list (rmItemsOf filters)),
          r.customer_id ≠ u) →
        ((rules.flatMap
            (ruleNormalize userTable customer_list (rmItemsOf filters))).filter
           (fun r => r.customer_id == u)).map (fun r => r.item) = [] := by
  refine ⟨collect_compress_eq userTable customer_list hr hcr hcf, ?_⟩
  intro u hnone
  rw [List.filter_eq_nil_iff.mpr (fun r hr2 hbeq => hnone r hr2 (eq_of_beq hbeq))]
  rfl

/-- C4: a Global strategy's normalized contribution pairs every target
user with every item row surviving exclusion: with k surviving items and n
target users it has exactly k times n rows, every (user, surviving item)
pair occurs, and every row carries a surviving item row's id, score and
method unchanged under some target user. -/
theorem global_broadcast_contribution (userTable : List URow)
    (customer_list : List UserId) (rm : List ItemId) (rows : List GRow) :
    (ruleNormalize userTable customer_list rm (.global rows)).length
        = (rows.filter (fun r => !(rm.contains r.item))).length
            * customer_list.length
    ∧ (∀ u ∈ customer_list,
        ∀ g ∈ rows.filter (fun r => !(rm.contains r.item)),
          (⟨u, some g.item, some g.score, some g.method⟩ : FlatRow)
            ∈ ruleNormalize userTable customer_list rm (.global rows))
    ∧ (∀ fr ∈ ruleNormalize userTable customer_list rm (.global rows),
        fr.customer_id ∈ customer_list ∧
          ∃ g ∈ rows.filter (fun r => !(rm.contains r.item)),
            fr = ⟨fr.customer_id, some g.item, some g.score, some g.method⟩) := by
  refine ⟨?_, ?_, ?_⟩
  · exact length_flatMap_const customer_list _ _ (fun u _ => by
      simp [List.length_map])
  · intro u hu g hg
    exact List.mem_flatMap.mpr ⟨u, hu, List.mem_map.mpr ⟨g, hg, rfl⟩⟩
  · intro fr hfr
    obtain ⟨u, hu, hmem⟩ := List.mem_flatMap.mp hfr
    obtain ⟨g, hg, rfl⟩ := List.mem_map.mp hmem
    exact ⟨hu, g, hg, rfl⟩

theorem ugUserKeys_ne_nil (userTable : List URow) (catCols : List String)
    (u : UserId) : ugUserKeys userTable catCols u ≠ [] := by
  unfold ugUserKeys
  by_cases h : (userTable.filter (fun r => r.customer_id == u)).isEmpty
  · rw [if_pos h]
    exact List.cons_ne_nil _ _
  · rw [if_neg h]
    intro hc
    rw [List.map_eq_nil_iff] at hc
    exact h (by rw [hc]; rfl)

theorem ugJoinItems_of_miss (rows : List UGRow) (u : UserId)
    (k : List AttrVal) (hmiss : ∀ r ∈ rows, ¬ r.key = k) :
    ugJoinItems rows u k = [⟨u, none, none, none⟩] := by
  unfold ugJoinItems
  rw [List.filter_eq_nil_iff.mpr
    (fun r hr hbeq => hmiss r hr (eq_of_beq hbeq))]
  rfl

/-- C2 (amended): a target user whose cohort attribute values match no
item row of a UserGroup strategy yields a null `item_id`/`score`/`method`
row in the normalized table; these left-join misses are NOT filtered out
before grouping, so under compression such a user's item sequence contains
a null entry contributed by that strategy. -/
theorem usergroup_miss_null_entry (userTable : List URow)
    (catCols : List String) (rows : List UGRow)
    (customer_list : List UserId) (u : UserId) (hu : u ∈ customer_list)
    (hmiss : ∀ k ∈ ugUserKeys userTable catCols u, ∀ r ∈ rows, ¬ r.key = k) :
    (⟨u, none, none, none⟩ : FlatRow)
        ∈ ruleNormalize userTable customer_list []
            (.userGroup catCols rows)
    ∧ ∀ t, collect userTable customer_list [.userGroup catCols rows] none
            true = .ok (.compressed t) →
        ∃ p ∈ t, p.1 = u ∧ (none : Option ItemId) ∈ p.2 := by
  have hrows : rows.filter (fun r => !(([] : List ItemId).contains r.item))
      = rows := filter_rm_nil (fun r => r.item) rows
  have hnullmem : (⟨u, none, none, none⟩ : FlatRow)
      ∈ ruleNormalize userTable customer_list [] (.userGroup catCols rows) := by
    show (⟨u, none, none, none⟩ : FlatRow)
      ∈ userGroupNormalize userTable catCols
          (rows.filter (fun r => !(([] : List ItemId).contains r.item)))
          customer_list
    rw [hrows]
    obtain ⟨k, ks, hks⟩ :=
      List.exists_cons_of_ne_nil (ugUserKeys_ne_nil userTable catCols u)
    refine List.mem_flatMap.mpr ⟨u, hu, List.mem_flatMap.mpr ⟨k, ?_, ?_⟩⟩
    · rw [hks]
      exact List.mem_cons_self k ks
    · rw [ugJoinItems_of_miss rows u k
        (hmiss k (by rw [hks]; exact List.mem_cons_self k ks))]
      exact List.mem_singleton.mpr rfl
  refine ⟨hnullmem, ?_⟩
  intro t ht
  rw [collect_compress_eq userTable customer_list
    (List.cons_ne_nil _ _) (by rfl) (by rfl)] at ht
  injection ht with ht
  injection ht with ht
  refine ⟨(u, (([Rule.userGroup catCols rows].flatMap
      (ruleNormalize userTable customer_list (rmItemsOf none))).filter
        (fun r => r.customer_id == u)).map (fun r => r.item)), ?_, rfl, ?_⟩
  · rw [← ht]
    exact List.mem_map.mpr ⟨u, hu, rfl⟩
  · refine List.mem_map.mpr ⟨⟨u, none, none, none⟩, ?_, rfl⟩
    refine List.mem_filter.mpr ⟨?_, by simp⟩
    show (⟨u, none, none, none⟩ : FlatRow)
      ∈ [Rule.userGroup catCols rows].flatMap
          (ruleNormalize userTable customer_list (rmItemsOf none))
    rw [List.flatMap_cons, List.flatMap_nil, List.append_nil]
    exact hnullmem

/-- C1 counterexample: target user 4 is unknown to the user table and the
UserGroup strategy's only item row is for cohort "a", so no strategy
produces any candidate for user 4 — the flat table holds only the
null-item join-miss row — yet the compressed output maps user 4 to the
one-element null sequence `[none]`, not to the empty sequence the claim
requires, and the null value appears in the output. -/
theorem coverage_empty_default_counterexample :
    collect [] [4] [.userGroup ["c"] [⟨[some "a"], 7, 1, "m"⟩]] none false
      = .ok (.flat (some [⟨4, none, none, none⟩]))
    ∧ collect [] [4] [.userGroup ["c"] [⟨[some "a"], 7, 1, "m"⟩]] none true
      = .ok (.compressed [(4, [none])])
    ∧ collect [] [4] [.userGroup ["c"] [⟨[some "a"], 7, 1, "m"⟩]] none true
      ≠ .ok (.compressed [(4, [])]) :=
  ⟨rfl, rfl, by decide⟩

/-- C2 counterexample: user 1 has cohort value "mid", the strategy only
has an item for cohort "young"; the left-join miss is NOT filtered out at
compression time — user 1's compressed sequence is the one-element null
sequence, not the empty sequence the claim requires. -/
theorem usergroup_miss_kept_counterexample :
    collect [⟨1, [("grp", some "mid")]⟩] [1]
        [.userGroup ["grp"] [⟨[some "young"], 10, 1, "ug"⟩]] none true
      = .ok (.compressed [(1, [none])])
    ∧ collect [⟨1, [("grp", some "mid")]⟩] [1]
        [.userGroup ["grp"] [⟨[some "young"], 10, 1, "ug"⟩]] none true
      ≠ .ok (.compressed [(1, [])]) :=
  ⟨rfl, by decide⟩

/-- C5 counterexample: with cohort column `age_band`, items
young→10 and old→20, and users 1:young, 2:old, 3:unknown, the compressed
output maps user 3 to the one-element null sequence `[none]`, not to the
empty sequence the claim requires. -/
theorem usergroup_join_scenario_counterexample :
    collect
        [⟨1, [("age_band", some "young")]⟩, ⟨2, [("age_band", some "old")]⟩]
        [1, 2, 3]
        [.userGroup ["age_band"]
          [⟨[some "young"], 10, 1, "ug"⟩, ⟨[some "old"], 20, 2, "ug"⟩]]
        none true
      = .ok (.compressed [(1, [some 10]), (2, [some 20]), (3, [none])])
    ∧ collect
        [⟨1, [("age_band", some "young")]⟩, ⟨2, [("age_band", some "old")]⟩]
        [1, 2, 3]
        [.userGroup ["age_band"]
          [⟨[some "young"], 10, 1, "ug"⟩, ⟨[some "old"], 20, 2, "ug"⟩]]
        none true
      ≠ .ok (.compressed [(1, [some 10]), (2, [some 20]), (3, [])]) :=
  ⟨rfl, by decide⟩

/-- C5 (amended): with cohort column `age_band`, items young→10 and
old→20, and users 1:young, 2:old, 3:unknown, the UserGroup normalization
maps user 1 to item 10, user 2 to item 20, and user 3 to a null-item row;
under compression that null row remains as a null entry, so user 3's
compressed sequence is `[none]` (not empty). -/
theorem usergroup_join_scenario :
    collect
        [⟨1, [("age_band", some "young")]⟩, ⟨2, [("age_band", some "old")]⟩]
        [1, 2, 3]
        [.userGroup ["age_band"]
          [⟨[some "young"], 10, 1, "ug"⟩, ⟨[some "old"], 20, 2, "ug"⟩]]
        none false
      = .ok (.flat (some
          [⟨1, some 10, some 1, some "ug"⟩, ⟨2, some 20, some 2, some "ug"⟩,
           ⟨3, none, none, none⟩]))
    ∧ collect
        [⟨1, [("age_band", some "young")]⟩, ⟨2, [("age_band", some "old")]⟩]
        [1, 2, 3]
        [.userGroup ["age_band"]
          [⟨[some "young"], 10, 1, "ug"⟩, ⟨[some "old"], 20, 2, "ug"⟩]]
        none true
      = .ok (.compressed [(1, [some 10]), (2, [some 20]), (3, [none])]) :=
  ⟨rfl, rfl⟩

/-- C6: normalized strategy tables are concatenated in strategy-list
order, and a user's compressed sequence follows row order after
concatenation: strategy A contributing rows for items i1 then i2, followed
by strategy B contributing i3, for the same user, gives the flat table
A-rows-then-B-row and the compressed sequence [i1, i2, i3]. -/
theorem merge_order_preserved (u : UserId) (i1 i2 i3 : ItemId) :
    predDf [] [u] []
        [.personal [⟨u, i1, 1, "A"⟩, ⟨u, i2, 2, "A"⟩],
         .personal [⟨u, i3, 3, "B"⟩]]
      = some
          (ruleNormalize [] [u] []
              (.personal [⟨u, i1, 1, "A"⟩, ⟨u, i2, 2, "A"⟩])
            ++ ruleNormalize [] [u] [] (.personal [⟨u, i3, 3, "B"⟩]))
    ∧ collect [] [u]
        [.personal [⟨u, i1, 1, "A"⟩, ⟨u, i2, 2, "A"⟩],
         .personal [⟨u, i3, 3, "B"⟩]] none true
      = .ok (.compressed [(u, [some i1, some i2, some i3])]) := by
  constructor
  · rw [predDf_eq_of_ne_nil _ _ _ (List.cons_ne_nil _ _)]
    simp
  · rw [collect_compress_eq _ _ (List.cons_ne_nil _ _) (by rfl) (by rfl)]
    simp [ruleNormalize, rmItemsOf]

/-- C7: the collector performs no deduplication — two Personal strategies
each returning item i for user u yield both rows in the flat output and
the duplicated sequence [i, i] in u's compressed sequence. -/
theorem no_dedup_duplicates (u : UserId) (i : ItemId) :
    collect [] [u] [.personal [⟨u, i, 1, "A"⟩], .personal [⟨u, i, 2, "B"⟩]]
        none false
      = .ok (.flat (some
          [⟨u, some i, some 1, some "A"⟩, ⟨u, some i, some 2, some "B"⟩]))
    ∧ collect [] [u] [.personal [⟨u, i, 1, "A"⟩], .personal [⟨u, i, 2, "B"⟩]]
        none true
      = .ok (.compressed [(u, [some i, some i])]) := by
  constructor
  · rw [collect_flat_eq _ _ (by rfl) (by rfl),
      predDf_eq_of_ne_nil _ _ _ (List.cons_ne_nil _ _)]
    simp [ruleNormalize, rmItemsOf]
  · rw [collect_compress_eq _ _ (List.cons_ne_nil _ _) (by rfl) (by rfl)]
    simp [ruleNormalize, rmItemsOf]

theorem sum_map_ite_count (cl : List UserId) (u : UserId) (k : Nat) :
    (cl.map (fun v => if (v == u) = true then k else 0)).sum
      = cl.count u * k := by
  induction cl with
  | nil => simp
  | cons v vs ih =>
      rw [List.map_cons, List.sum_cons, ih, List.count_cons]
      cases hv : v == u
      · simp [hv]
      · simp only [hv, if_true, if_pos]
        rw [Nat.succ_mul, Nat.add_comm]

/-- C10: the collector does not deduplicate the target user list — a user
id occurring m times in `customer_list` receives m×k flat rows from a
Global strategy with k surviving items (m is `customer_list.count u`), and
the compressed output has exactly m rows for that id, each carrying the
same grouped item sequence. -/
theorem duplicate_users_not_merged (userTable : List URow)
    (customer_list : List UserId) (u : UserId) (rows : List GRow)
    (filters : Option (List FilterObj)) (hcf : filtersOk filters = true) :
    (ruleNormalize userTable customer_list (rmItemsOf filters)
        (.global rows)).countP (fun r => r.customer_id == u)
      = customer_list.count u
          * (rows.filter
              (fun r => !((rmItemsOf filters).contains r.item))).length
    ∧ collect userTable customer_list [.global rows] filters true
        = .ok (.compressed (customer_list.map (fun v =>
            (v, ((ruleNormalize userTable customer_list (rmItemsOf filters)
                    (.global rows)).filter
                   (fun r => r.customer_id == v)).map (fun r => r.item)))))
    ∧ (customer_list.map (fun v =>
          (v, ((ruleNormalize userTable customer_list (rmItemsOf filters)
                  (.global rows)).filter
                 (fun r => r.customer_id == v)).map
                (fun r => r.item)))).countP (fun p => p.1 == u)
        = customer_list.count u
    ∧ ∀ p ∈ customer_list.map (fun v =>
          (v, ((ruleNormalize userTable customer_list (rmItemsOf filters)
                  (.global rows)).filter
                 (fun r => r.customer_id == v)).map (fun r => r.item))),
        p.1 = u →
          p.2 = ((ruleNormalize userTable customer_list (rmItemsOf filters)
                   (.global rows)).filter
                  (fun r => r.customer_id == u)).map (fun r => r.item) := by
  refine ⟨?_, ?_, ?_, ?_⟩
  · show (globalBroadcast customer_list
        (rows.filter
          (fun r => !((rmItemsOf filters).contains r.item)))).countP
        (fun r => r.customer_id == u) = _
    unfold globalBroadcast
    refine Eq.trans
      (countP_flatMap_const (fun (r : FlatRow) => r.customer_id == u)
        customer_list _
        (fun v => if (v == u) = true
          then (rows.filter
            (fun r => !((rmItemsOf filters).contains r.item))).length
          else 0) ?_)
      (sum_map_ite_count customer_list u _)
    intro v _
    rw [List.countP_map]
    cases hv : v == u
    · simp [Function.comp, hv]
    · simp [Function.comp, hv]
  · rw [collect_compress_eq userTable customer_list
      (List.cons_ne_nil _ _) (by rfl) hcf]
    simp only [List.flatMap_cons, List.flatMap_nil, List.append_nil]
  · rw [List.countP_map]
    exact (List.count_eq_countP u customer_list).symm
  · intro p hp hpu
    obtain ⟨v, hv, rfl⟩ := List.mem_map.mp hp
    cases hpu
    rfl

/-! ### Witnesses: the claim theorems instantiated at concrete inputs -/

/-- Witness for C1 at a one-user target list and one empty Personal rule. -/
theorem collect_compressed_coverage_witness :
    collect [] [5] [.personal []] none true = .ok (.compressed [(5, [])]) :=
  (collect_compressed_coverage [] [5] [.personal []] none (by decide)
    (by rfl) (by rfl)).1

/-- Witness for C2's amended theorem: user 1 has cohort "mid", the only
item row is for cohort "young". -/
theorem usergroup_miss_null_entry_witness :
    (⟨1, none, none, none⟩ : FlatRow)
      ∈ ruleNormalize [⟨1, [("grp", some "mid")]⟩] [1] []
          (.userGroup ["grp"] [⟨[some "young"], 10, 1, "ug"⟩]) :=
  (usergroup_miss_null_entry [⟨1, [("grp", some "mid")]⟩] ["grp"]
    [⟨[some "young"], 10, 1, "ug"⟩] [1] 1 (by decide) (by decide)).1

/-- Witness for C3: item 9 is excluded by the filter, so the compressed
output for the Global rule returning item 9 never mentions it. -/
theorem collect_excluded_item_absent_witness :
    ¬ outputHasItem (.compressed [(5, [])]) 9 :=
  collect_excluded_item_absent [] [5] [.global [⟨9, 1, "g"⟩]]
    (some [.rule [9]]) true 9 (.compressed [(5, [])]) (by decide) (by rfl)

/-- Witness for C4: user 5 is paired with the surviving global item 9. -/
theorem global_broadcast_contribution_witness :
    (⟨5, some 9, some 1, some "g"⟩ : FlatRow)
      ∈ ruleNormalize [] [5] [] (.global [⟨9, 1, "g"⟩]) :=
  (global_broadcast_contribution [] [5] [] [⟨9, 1, "g"⟩]).2.1 5
    (by decide) ⟨9, 1, "g"⟩ (by decide)

/-- Witness for C8: one unrecognized strategy aborts the call with the
strategy conformance failure and no retrieve invocation at all. -/
theorem collect_type_check_fail_fast_witness :
    collectEvents [.unknown] (some [.rule [1]]) = []
    ∧ collect [] [5] [.unknown] (some [.rule [1]]) true
        = .error .unsupportedStrategy := by
  have h := collect_type_check_fail_fast [] [5] [.unknown]
    (some [.rule [1]]) true (Or.inl (by rfl))
  exact ⟨h.1, h.2.1 (by rfl)⟩

/-- Witness for C9 at a two-user target list with no filters. -/
theorem collect_empty_rules_witness :
    collect [] [3, 4] [] none false = .ok (.flat none)
    ∧ collect [] [3, 4] [] none true = .error .noneGroupby :=
  collect_empty_rules [] [3, 4] none (by rfl)

/-- Witness for C10: user 5 occurs twice, the Global rule has one item, so
user 5 receives two flat rows. -/
theorem duplicate_users_not_merged_witness :
    (ruleNormalize [] [5, 5] (rmItemsOf none) (.global [⟨9, 1, "g"⟩])).countP
        (fun r => r.customer_id == 5) = 2 := by
  have h := (duplicate_users_not_merged [] [5, 5] 5 [⟨9, 1, "g"⟩] none
    (by rfl)).1
  exact h.trans (by decide)

end HMRec
